import Mathlib

/-!
Verification of the pymud core against its specification.

Shallow embedding of the relevant parts of src/pymud:
- the Telnet negotiation byte classifier (MudClientProtocol.data_received),
- the GMCP / MSDP sub-negotiation codecs,
- the CodeLine / CodeBlock tokenizer and variable expansion,
- the MatchObject multi-line matcher,
- the session trigger dispatch loop (SessionIO.go_ahead),
- the SimpleCommand retry/race loop.

Machine bytes are modelled as Nat, fallible code as Except, and the
asyncio race in SimpleCommand.execute as an explicit trace of round
winners.
-/

set_option maxHeartbeats 1000000

namespace PyMud

/-! ### Telnet protocol constants (protocol.py, module level) -/

def IAC : Nat := 0xFF
def DONT : Nat := 0xFE
def DO : Nat := 0xFD
def WONT : Nat := 0xFC
def WILL : Nat := 0xFB
def SE : Nat := 0xF0
def NOP : Nat := 0xF1
def GA : Nat := 0xF9
def SB : Nat := 0xFA

/-- Keys of `_option_name_str` in protocol.py: LINEMODE, SGA, ECHO, CHARSET,
TTYPE, NAWS, MNES, GMCP, MSDP, MSSP, MCCP2, MCCP3, MSP, MXP. -/
def optionBytes : List Nat :=
  [0x22, 0x03, 0x01, 0x2A, 0x18, 0x1F, 0x27, 0xC9, 0x45, 0x46, 0x56, 0x57, 0x5A, 0x5B]

/-- Options for which a `handle_<name>_sb` sub-negotiation handler method is
defined on MudClientProtocol: CHARSET, TTYPE, MNES, GMCP, MSDP, MSSP.
For the remaining options `getattr` yields None and the completed
sub-negotiation is discarded. -/
def subnegHandledBytes : List Nat := [0x2A, 0x18, 0x27, 0xC9, 0x45, 0x46]

/-! ### The byte classifier state machine (MudClientProtocol.data_received) -/

/-- The `_state_machine` string attribute. -/
inductive SM where
  | normal
  | waitcommand
  | waitoption
  | waitsubnegotiation
  | waitsbdata
  | waitse
  deriving DecidableEq, Repr

/-- The mutable protocol attributes touched by data_received.
`none` models an attribute not yet assigned. -/
structure ProtoState where
  sm : SM
  iacCommand : Option Nat
  subNegData : List Nat
  subNegOption : Option Nat
  deriving DecidableEq, Repr

/-- Observable effects of one byte of data_received.
`data b` is session.feed_data, `goAhead` is session.go_ahead,
`negotiate` is the option-negotiation dispatch of the waitoption state
(`known` records whether the option byte is a key of `_option_name_str`),
`illegal` is the log-and-reset branch, and `subnegComplete` records
reaching the dispatch site of a completed sub-negotiation in state waitse
with the full accumulated buffer; its flags record the source branch
taken there: `known` is option membership in `_option_name_str`, and
`handled` whether a `handle_<option>_sb` codec exists and is invoked
with the buffer. -/
inductive ProtoEvent where
  | data (b : Nat)
  | goAhead
  | negotiate (cmd : Option Nat) (opt : Nat) (known : Bool)
  | illegal (b : Nat)
  | subnegComplete (opt : Option Nat) (buf : List Nat) (known handled : Bool)
  deriving DecidableEq, Repr

def knownOpt : Option Nat → Bool
  | some o => optionBytes.contains o
  | none => false

def handledOpt : Option Nat → Bool
  | some o => optionBytes.contains o && subnegHandledBytes.contains o
  | none => false

/-- One iteration of the byte loop of MudClientProtocol.data_received. -/
def protoStep (st : ProtoState) (b : Nat) : ProtoState × List ProtoEvent :=
  match st.sm with
  | .normal =>
      if b = IAC then ({ st with sm := .waitcommand }, [.goAhead])
      else (st, [.data b])
  | .waitcommand =>
      if b = WILL ∨ b = WONT ∨ b = DO ∨ b = DONT then
        ({ st with iacCommand := some b, sm := .waitoption }, [])
      else if b = SB then
        ({ st with iacCommand := some b, subNegData := [IAC, SB], sm := .waitsubnegotiation }, [])
      else if b = NOP then ({ st with sm := .normal }, [.goAhead])
      else if b = GA then ({ st with sm := .normal }, [.goAhead])
      else ({ st with sm := .normal }, [.illegal b])
  | .waitoption =>
      ({ st with sm := .normal }, [.negotiate st.iacCommand b (optionBytes.contains b)])
  | .waitsubnegotiation =>
      if b ≠ IAC then
        ({ st with subNegOption := some b, subNegData := st.subNegData ++ [b]
                   , sm := .waitsbdata }, [])
      else
        ({ st with sm := .normal }, [.illegal b])
  | .waitsbdata =>
      let st2 := { st with subNegData := st.subNegData ++ [b] }
      if b = IAC then ({ st2 with sm := .waitse }, []) else (st2, [])
  | .waitse =>
      let st2 := { st with subNegData := st.subNegData ++ [b] }
      if b = SE then
        ({ st2 with sm := .normal },
         [.subnegComplete st2.subNegOption st2.subNegData
            (knownOpt st2.subNegOption) (handledOpt st2.subNegOption)])
      else
        ({ st2 with sm := .waitsbdata }, [])

/-- data_received on a chunk of bytes: iterate protoStep, collecting events. -/
def protoRunFrom (st : ProtoState) (bs : List Nat) : ProtoState × List ProtoEvent :=
  match bs with
  | [] => (st, [])
  | b :: rest =>
      let r := protoStep st b
      let r2 := protoRunFrom r.1 rest
      (r2.1, r.2 ++ r2.2)

/-- State right after connection_made: `_state_machine = "normal"`, no
negotiation attributes assigned yet. -/
def initState : ProtoState :=
  { sm := .normal, iacCommand := none, subNegData := [], subNegOption := none }

/-- The completed sub-negotiations among a list of events. -/
def subnegEvents (evs : List ProtoEvent) : List (Option Nat × List Nat) :=
  evs.filterMap fun e =>
    match e with
    | .subnegComplete o b _ _ => some (o, b)
    | _ => none

/-- Python slice `data[3:-2]`, the payload portion used by the
sub-negotiation codecs (handle_gmcp_sb, handle_msdp_sb iterate exactly
these indices): drop the leading IAC SB <option>, drop the trailing IAC SE. -/
def subnegPayloadSlice (data : List Nat) : List Nat :=
  (data.drop 3).take ((data.drop 3).length - 2)

/-- Count of literal IAC (0xFF) bytes in a byte list. -/
def countIAC (l : List Nat) : Nat := l.count 0xFF

/-- The escaped encoding of a raw payload on the wire: each 0xFF byte of the
raw payload appears as the pair `IAC IAC`. -/
def escapeIAC : List Nat → List Nat
  | [] => []
  | b :: rest => (if b = 0xFF then [0xFF, 0xFF] else [b]) ++ escapeIAC rest

/-! ### GMCP sub-negotiation (handle_gmcp_sb, feed_gmcp, GMCPTrigger.__call__) -/

/-- Python `str.find(sub)` for a single character: index of the first
occurrence, or -1 when absent. -/
def findIdx (c : Char) : List Char → Int
  | [] => -1
  | x :: rest =>
      if x = c then 0
      else
        let r := findIdx c rest
        if r = -1 then -1 else r + 1

/-- Python slice `s[:k]` including negative-index semantics. -/
def sliceTo (cs : List Char) (k : Int) : List Char :=
  if 0 ≤ k then cs.take k.toNat else cs.take (cs.length - (-k).toNat)

/-- Python slice `s[k:]` including negative-index semantics. -/
def sliceFrom (cs : List Char) (k : Int) : List Char :=
  if 0 ≤ k then cs.drop k.toNat else cs.drop (cs.length - (-k).toNat)

/-- handle_gmcp_sb after the byte-decode step: split the decoded payload
text at the first space, `name = gmcp_data[:space_split]`,
`value = gmcp_data[space_split + 1:]`; the pair is then passed to
session.feed_gmcp unchanged. -/
def handle_gmcp_sb_split (gmcpData : String) : String × String :=
  let cs := gmcpData.data
  let space_split := findIdx ' ' cs
  (String.mk (sliceTo cs space_split), String.mk (sliceFrom cs (space_split + 1)))

/-- A Python runtime value, as far as the GMCP claims need one: the result
of evaluating server-supplied text is either a string or some non-string
object (here represented by int, enough to witness the evaluation). -/
inductive PyValue where
  | str (s : String)
  | int (n : Int)
  deriving DecidableEq, Repr

/-- Models the Python builtin `eval`, restricted to decimal integer
literals: evaluating a string of decimal digits yields the corresponding
int object; on anything else this restriction reports failure (`none`),
which in GMCPTrigger.__call__ lands in the `except` fallback. -/
def pyEvalIntLiteral (s : String) : Option PyValue :=
  match decimalNat s.data with
  | some n => some (.int n)
  | none => none
where
  decimalNat : List Char → Option Nat
    | [] => none
    | cs => go cs 0
  go : List Char → Nat → Option Nat
    | [], acc => some acc
    | c :: rest, acc =>
        if '0' ≤ c ∧ c ≤ '9' then go rest (acc * 10 + (c.toNat - 48)) else none

/-- The attribute assignments and callback invocation performed by
GMCPTrigger.__call__(value): `value_exp = eval(value)` with the raw text
as fallback on exception, `self.line = value`, `self.value = value_exp`,
then `_onSuccess(self.id, value, value_exp)`. The evaluator is passed in
as `pyEval` (returning `none` when eval raises). -/
structure GmcpTriggerResult where
  line : String
  value : PyValue
  onSuccessArgs : String × String × PyValue
  deriving DecidableEq, Repr

def gmcpTriggerCall (pyEval : String → Option PyValue) (id : String)
    (value : String) : GmcpTriggerResult :=
  let value_exp :=
    match pyEval value with
    | some v => v
    | none => PyValue.str value
  { line := value, value := value_exp, onSuccessArgs := (id, value, value_exp) }

/-- SessionIO.feed_gmcp: look the name up among the registered GMCPTrigger
names and, when present, call the trigger with the raw value string. -/
def feed_gmcp (pyEval : String → Option PyValue) (gmcpNames : List String)
    (name value : String) : Option GmcpTriggerResult :=
  if gmcpNames.contains name then some (gmcpTriggerCall pyEval name value) else none

/-! ### MSDP sub-negotiation decoder (handle_msdp_sb) -/

def MSDP_VAR : Nat := 1
def MSDP_VAL : Nat := 2
def MSDP_TABLE_OPEN : Nat := 3
def MSDP_TABLE_CLOSE : Nat := 4
def MSDP_ARRAY_OPEN : Nat := 5
def MSDP_ARRAY_CLOSE : Nat := 6

/-- `bytearray.decode` under a single-byte charset: one char per byte.
(The MSDP claims do not depend on the decoded text, only on control flow.) -/
def byteStr (l : List Nat) : String := String.mk (l.map Char.ofNat)

inductive MsdpVal where
  | text (s : String)
  | array (l : List String)
  | table (l : List (String × String))
  deriving DecidableEq, Repr

/-- Python dict assignment `d[k] = v` on an insertion-ordered mapping. -/
def dictSet (d : List (String × Option MsdpVal)) (k : String) (v : Option MsdpVal) :
    List (String × Option MsdpVal) :=
  if d.any (fun p => p.1 = k) then d.map (fun p => if p.1 = k then (k, v) else p)
  else d ++ [(k, v)]

/-- The `state_machine` string of handle_msdp_sb. -/
inductive MsdpSM where
  | wait_var
  | wait_var_name
  | wait_var_value
  | wait_val_in_array
  | wait_val_in_table
  | wait_end
  deriving DecidableEq, Repr

/-- The `state_machine_table` local of handle_msdp_sb. -/
inductive MsdpTableSM where
  | wait_table_var
  | wait_table_val
  deriving DecidableEq, Repr

/-- The locals of handle_msdp_sb. `none` models a local not yet assigned
(reading it raises UnboundLocalError). -/
structure MsdpState where
  sm : MsdpSM
  msdp_data : List (String × Option MsdpVal)
  var_name : List Nat
  val_in_array : List String
  val_in_table : List (String × String)
  val_in_text : List Nat
  table_var_name : List Nat
  table_var_value : List Nat
  current_var : Option String
  smTable : Option MsdpTableSM
  deriving DecidableEq, Repr

def initMsdpState : MsdpState :=
  { sm := .wait_var, msdp_data := [], var_name := [], val_in_array := [],
    val_in_table := [], val_in_text := [], table_var_name := [],
    table_var_value := [], current_var := none, smTable := none }

/-- One iteration of the byte loop of handle_msdp_sb. `.error` models an
uncaught Python exception. Two slips of the source are embedded faithfully:
in state wait_val_in_table the source writes
`table_var_name.decode[self.encoding]` (subscripting the bound method
object, an unconditional TypeError) in both the MSDP_TABLE_CLOSE branch
and the MSDP_VAR branch with a pending name, and its final `else` branch
reads `state_machine_table` which has no assignment on every path
(UnboundLocalError when still unassigned). -/
def msdpStep (st : MsdpState) (b : Nat) : Except String MsdpState :=
  match st.sm with
  | .wait_var =>
      if b = MSDP_VAR then
        .ok { st with sm := .wait_var_name, var_name := [] }
      else
        .ok st
  | .wait_var_name =>
      if b = MSDP_VAL then
        let current_var := byteStr st.var_name
        .ok { st with
              val_in_array := [], val_in_table := [], val_in_text := [],
              current_var := some current_var,
              msdp_data := dictSet st.msdp_data current_var none,
              sm := .wait_var_value }
      else if b = MSDP_ARRAY_OPEN ∨ b = MSDP_ARRAY_CLOSE ∨ b = MSDP_TABLE_OPEN ∨ b = MSDP_TABLE_CLOSE then
        .ok st
      else
        .ok { st with var_name := st.var_name ++ [b] }
  | .wait_var_value =>
      if b = MSDP_ARRAY_OPEN then
        .ok { st with sm := .wait_val_in_array }
      else if b = MSDP_TABLE_OPEN then
        .ok { st with sm := .wait_val_in_table }
      else if b = IAC ∨ b = MSDP_VAR ∨ b = MSDP_VAL then
        match st.current_var with
        | some cv =>
            .ok { st with
                  msdp_data := dictSet st.msdp_data cv (some (.text (byteStr st.val_in_text))),
                  sm := .wait_end }
        | none => .error "UnboundLocalError: current_var"
      else
        .ok { st with val_in_text := st.val_in_text ++ [b] }
  | .wait_val_in_array =>
      if b = MSDP_ARRAY_CLOSE then
        match st.current_var with
        | some cv =>
            let arr := st.val_in_array ++ [byteStr st.val_in_text]
            .ok { st with
                  val_in_array := arr, val_in_text := [],
                  msdp_data := dictSet st.msdp_data cv (some (.array arr)),
                  sm := .wait_end }
        | none => .error "UnboundLocalError: current_var"
      else if b = MSDP_VAL then
        if st.val_in_text.length > 0 then
          .ok { st with
                val_in_array := st.val_in_array ++ [byteStr st.val_in_text],
                val_in_text := [] }
        else
          .ok st
      else
        .ok { st with val_in_text := st.val_in_text ++ [b] }
  | .wait_val_in_table =>
      if b = MSDP_TABLE_CLOSE then
        .error "TypeError: builtin_function_or_method object is not subscriptable"
      else if b = MSDP_VAR then
        if st.table_var_name.length > 0 then
          .error "TypeError: builtin_function_or_method object is not subscriptable"
        else
          .ok { st with smTable := some .wait_table_var }
      else if b = MSDP_VAL then
        .ok { st with smTable := some .wait_table_val }
      else
        match st.smTable with
        | some .wait_table_var => .ok { st with table_var_name := st.table_var_name ++ [b] }
        | some .wait_table_val => .ok { st with table_var_value := st.table_var_value ++ [b] }
        | none => .error "UnboundLocalError: state_machine_table"
  | .wait_end => .ok st

def msdpRun (st : MsdpState) : List Nat → Except String MsdpState
  | [] => .ok st
  | b :: rest =>
      match msdpStep st b with
      | .ok st2 => msdpRun st2 rest
      | .error e => .error e

/-- handle_msdp_sb: iterate the state machine over `data[3:-2]` (the loop
runs `for idx in range(3, len(data) - 2)`) and return the accumulated
`msdp_data` mapping, which the source merges into `self.msdp`. An
`.error` result models the call raising an uncaught exception. -/
def handle_msdp_sb (data : List Nat) : Except String (List (String × Option MsdpVal)) :=
  match msdpRun initMsdpState (subnegPayloadSlice data) with
  | .ok st => .ok st.msdp_data
  | .error e => .error e

/-! ### CodeLine.create_line (objects.py) -/

def lbrace : Char := Char.ofNat 123
def rbrace : Char := Char.ofNat 125
def squote : Char := Char.ofNat 39
def dquote : Char := Char.ofNat 34

inductive SyncMode where
  | dontcare
  | sync
  | async
  deriving DecidableEq, Repr

/-- The loop state of CodeLine.create_line: brace depth, quote toggles,
the token being accumulated, the finished tokens. -/
structure ScanState where
  brace : Nat
  sq : Bool
  dq : Bool
  arg : String
  params : List String
  deriving DecidableEq, Repr

/-- The character loop of CodeLine.create_line. Braces track depth and are
kept in the token; a closing brace below depth 0 raises; quote characters
toggle their flag and are dropped; a space at depth 0 outside quotes
finishes the current token. -/
def scanLine (st : ScanState) : List Char → Except String ScanState
  | [] => .ok st
  | c :: rest =>
      if c = lbrace then
        scanLine { st with brace := st.brace + 1, arg := st.arg.push c } rest
      else if c = rbrace then
        if st.brace = 0 then .error "Invalid code block, unmatched braces"
        else scanLine { st with brace := st.brace - 1, arg := st.arg.push c } rest
      else if c = squote then scanLine { st with sq := !st.sq } rest
      else if c = dquote then scanLine { st with dq := !st.dq } rest
      else if c = ' ' then
        if st.brace = 0 ∧ st.dq = false ∧ st.sq = false then
          scanLine { st with params := st.params ++ [st.arg], arg := "" } rest
        else scanLine { st with arg := st.arg.push c } rest
      else scanLine { st with arg := st.arg.push c } rest

/-- CodeLine.create_line. On the empty string the source executes
`return syncmode, hasvar, tuple()` with the local `syncmode` never
assigned on that path, an UnboundLocalError; modelled as `.error`.
A leading `#` becomes its own token and the scan starts after it. After
the scan, open quotes raise; a leftover token is appended and decides
`hasvar` by its first character; the sync-mode classification looks at
the first two tokens. -/
def create_line (line : String) : Except String (SyncMode × Bool × List String) :=
  if line.length > 0 then
    let isHash := line.data.headD ' ' = '#'
    let startTok : List String := if isHash then ["#"] else []
    let cs := if isHash then line.data.drop 1 else line.data
    match scanLine { brace := 0, sq := false, dq := false, arg := "", params := startTok } cs with
    | .error e => .error e
    | .ok st =>
        if st.sq ∨ st.dq then .error "Unmatched quotes"
        else
          let code_params := if st.arg ≠ "" then st.params ++ [st.arg] else st.params
          let hasvar :=
            if st.arg ≠ "" then
              decide (st.arg.data.headD ' ' = '@' ∨ st.arg.data.headD ' ' = '%')
            else false
          let syncmode :=
            if code_params.length ≥ 2 ∧ code_params.headD "" = "#" then
              if code_params.getD 1 "" = "gag" ∨ code_params.getD 1 "" = "replace" then
                SyncMode.sync
              else if code_params.getD 1 "" = "wa" ∨ code_params.getD 1 "" = "wait" then
                SyncMode.async
              else SyncMode.dontcare
            else SyncMode.dontcare
          .ok (syncmode, hasvar, code_params)
  else .error "UnboundLocalError: syncmode"

/-- No unmatched closing brace: scanning left to right from depth `d`, no
closing brace ever arrives at depth 0. -/
def bracesOk : List Char → Nat → Bool
  | [], _ => true
  | c :: rest, d =>
      if c = lbrace then bracesOk rest (d + 1)
      else if c = rbrace then
        if d = 0 then false else bracesOk rest (d - 1)
      else bracesOk rest d

/-! ### CodeLine.expand (objects.py) -/

def percentTokens : List String := ["%1", "%2", "%3", "%4", "%5", "%6", "%7", "%8", "%9"]

/-- Python `int(item[1:])` restricted to the nine tokens that pass the
`item in (f"%..{i}.." for i in range(1, 10))` membership test. -/
def pctIndex (item : String) : Nat :=
  if item = "%1" then 1 else if item = "%2" then 2 else if item = "%3" then 3
  else if item = "%4" then 4 else if item = "%5" then 5 else if item = "%6" then 6
  else if item = "%7" then 7 else if item = "%8" then 8 else if item = "%9" then 9
  else 0

/-- session.getVariable(name, default). -/
def getVariable (vars : String → Option String) (name dflt : String) : String :=
  (vars name).getD dflt

/-- Python `a or b` on an optional string argument (empty strings are falsy). -/
def pyOrStr (kw : Option String) (fallback : String) : String :=
  match kw with
  | some s => if s = "" then fallback else s
  | none => fallback

/-- The body of the token loop of CodeLine.expand building `new_code`:
zero-length tokens are skipped; `%1`..`%9` index the wildcards (1-based,
the literal string None when past the end); `%line` and `%raw` take the
resolved pseudo-variable values; other tokens starting with `%` look up
the session variable under the full token name with default empty
string; tokens starting with `@` look up the rest of the token; anything
else passes through. -/
def expandGo (vars : String → Option String) (line raw : String)
    (wildcards : List String) : List String → List String
  | [] => []
  | item :: rest =>
      let tail := expandGo vars line raw wildcards rest
      if item.length = 0 then tail
      else if percentTokens.contains item then
        (if pctIndex item ≤ wildcards.length then wildcards.getD (pctIndex item - 1) ""
         else "None") :: tail
      else if item = "%line" then line :: tail
      else if item = "%raw" then raw :: tail
      else if item.data.headD ' ' = '%' then getVariable vars item "" :: tail
      else if item.data.headD ' ' = '@' then getVariable vars (item.drop 1) "" :: tail
      else item :: tail

/-- CodeLine.expand, the `new_code` component: resolve the `%line` and
`%raw` pseudo-variables from the keyword arguments with session-variable
fallback, then expand each token. -/
def expand (vars : String → Option String) (kwline kwraw : Option String)
    (wildcards : List String) (tokens : List String) : List String :=
  let line := pyOrStr kwline (getVariable vars "%line" "None")
  let raw := pyOrStr kwraw (getVariable vars "%raw" "None")
  expandGo vars line raw wildcards tokens

/-- The per-token mapping exactly as the specification states it (for
comparison with `expand`): every token is mapped, none is skipped. -/
def specTokenMap (vars : String → Option String) (line raw : String)
    (wildcards : List String) (item : String) : String :=
  if percentTokens.contains item then
    if pctIndex item ≤ wildcards.length then wildcards.getD (pctIndex item - 1) "" else "None"
  else if item = "%line" then line
  else if item = "%raw" then raw
  else if item.data.headD ' ' = '%' then getVariable vars item ""
  else if item.data.headD ' ' = '@' then getVariable vars (item.drop 1) ""
  else item

/-! ### CodeBlock.create_block (objects.py) -/

/-- The unwrap step of create_block: a block wrapped in one outer brace
pair loses the braces. -/
def stripBraces (code : String) : String :=
  if code.length ≥ 2 ∧ code.data.headD ' ' = lbrace ∧ code.data.getLastD ' ' = rbrace then
    (code.drop 1).dropRight 1
  else code

/-- The split of create_block: cut on `;` at brace depth 0 (quote-unaware
at this level), tracking braces; a closing brace below depth 0 raises; a
leftover nonempty piece is appended. -/
def splitSemis : List Char → Nat → String → List String → Except String (List String)
  | [], _, line, acc => .ok (if line ≠ "" then acc ++ [line] else acc)
  | c :: rest, brace, line, acc =>
      if c = lbrace then splitSemis rest (brace + 1) (line.push c) acc
      else if c = rbrace then
        if brace = 0 then .error "Invalid code block, unmatched braces"
        else splitSemis rest (brace - 1) (line.push c) acc
      else if c = ';' then
        if brace = 0 then splitSemis rest 0 "" (acc ++ [line])
        else splitSemis rest brace (line.push c) acc
      else splitSemis rest brace (line.push c) acc

/-- CodeBlock.create_block, producing the source strings of the CodeLine
objects of `self.codes`, with explicit recursion fuel (the source
recursion always terminates because every recursive call receives a
strictly shorter string). A single piece yields one CodeLine built from
the whole (possibly brace-stripped) string; several pieces run
`codes.extend(CodeBlock.create_block(line))` over the pieces. -/
def create_block_go : Nat → String → Except String (List String)
  | 0, _ => .error "fuel exhausted"
  | fuel + 1, code0 =>
      let code := stripBraces code0
      match splitSemis code.data 0 "" [] with
      | .error e => .error e
      | .ok code_lines =>
          if code_lines.length = 1 then .ok [code]
          else
            code_lines.foldl
              (fun acc l =>
                match acc with
                | .error e => .error e
                | .ok cs =>
                    match create_block_go fuel l with
                    | .error e => .error e
                    | .ok cs2 => .ok (cs ++ cs2))
              (.ok [])

def create_block (code : String) : Except String (List String) :=
  create_block_go (code.length + 1) code

/-- The `codes` attribute of a CodeBlock, as the parses of its CodeLine
source strings. -/
def codesOf (code : String) :
    Except String (List (Except String (SyncMode × Bool × List String))) :=
  (create_block code).map (List.map create_line)

/-! ### MatchObject.match, multi-line mode (objects.py) -/

/-- A compiled regular expression, abstracted as its anchored-match
function: `none` when `regexp.match(line)` is None, otherwise the tuple
of captured groups. -/
def Pattern : Type := String → Option (List String)

def NOTSET : Int := -1
def FAILURE : Int := 0
def SUCCESS : Int := 1
def TIMEOUT : Int := 2

/-- The multi-line matcher state: `_mline`, `self.lines`, `self.wildcards`. -/
structure MLState where
  mline : Nat
  lines : List String
  wildcards : List String
  deriving DecidableEq, Repr

/-- The multi-line branch of MatchObject.match: at counter 0 a first-line
match starts a fresh capture; at an interior counter a match advances and
extends the captures while a non-match resets the counter to 0; at the
final counter a match appends, extends and reports SUCCESS, and the
counter resets either way. -/
def multiline_match (rs : List Pattern) (st : MLState) (line : String) : MLState × Int :=
  let n := rs.length
  if st.mline = 0 then
    match rs.getD 0 (fun _ => none) line with
    | some gs => ({ mline := 1, lines := [line], wildcards := gs }, NOTSET)
    | none => (st, NOTSET)
  else if 0 < st.mline ∧ st.mline < n - 1 then
    match rs.getD st.mline (fun _ => none) line with
    | some gs =>
        ({ st with
           mline := st.mline + 1, lines := st.lines ++ [line],
           wildcards := st.wildcards ++ gs }, NOTSET)
    | none => ({ st with mline := 0 }, NOTSET)
  else if st.mline = n - 1 then
    match rs.getD st.mline (fun _ => none) line with
    | some gs =>
        ({ mline := 0, lines := st.lines ++ [line],
           wildcards := st.wildcards ++ gs }, SUCCESS)
    | none => ({ st with mline := 0 }, NOTSET)
  else (st, NOTSET)

/-- The `line` field of the returned State: `"\n".join(self.lines)`. -/
def stateLine (st : MLState) : String := String.intercalate "\n" st.lines

/-! ### The trigger dispatch loop of SessionIO.go_ahead -/

/-- The fields of a session trigger that the dispatch loop reads. `fires`
abstracts `tri.match(line, docallback=True).result == SUCCESS` for a
single-line trigger (side-effect free). -/
structure TriggerRec where
  id : String
  enabled : Bool
  priority : Int
  keepEval : Bool
  oneShot : Bool
  fires : String → Bool

/-- Stable insertion by ascending priority: the new element goes before
the first element of greater-or-equal... (strictly greater or equal)
priority never jumps over an earlier equal key, modelling the stability
of Python list.sort. -/
def insertByPriority (t : TriggerRec) : List TriggerRec → List TriggerRec
  | [] => [t]
  | u :: rest =>
      if u.priority < t.priority then u :: insertByPriority t rest
      else t :: u :: rest

/-- `all_tris.sort(key=lambda tri: tri.priority)`: a stable sort by
ascending priority. -/
def sortByPriority : List TriggerRec → List TriggerRec
  | [] => []
  | t :: rest => insertByPriority t (sortByPriority rest)

/-- The snapshot the dispatch loop iterates: enabled triggers, sorted by
ascending priority. -/
def sortedEnabled (table : List TriggerRec) : List TriggerRec :=
  sortByPriority (table.filter (·.enabled))

/-- The `for tri in all_tris` loop of go_ahead: returns the evaluated
trigger ids in order, the ids whose callbacks fired (match returned
SUCCESS), and the ids popped from the table (fired one-shot triggers).
A firing trigger without keepEval breaks the loop. -/
def dispatchGo (line : String) : List TriggerRec → List String × List String × List String
  | [] => ([], [], [])
  | t :: rest =>
      if t.fires line then
        let removed := if t.oneShot then [t.id] else []
        if !t.keepEval then ([t.id], [t.id], removed)
        else
          let r := dispatchGo line rest
          (t.id :: r.1, t.id :: r.2.1, removed ++ r.2.2)
      else
        let r := dispatchGo line rest
        (t.id :: r.1, r.2.1, r.2.2)

/-- The whole trigger-dispatch portion of go_ahead: snapshot, iterate,
and remove the popped ids from the session table. -/
def go_ahead_dispatch (table : List TriggerRec) (line : String) :
    (List String × List String) × List TriggerRec :=
  let r := dispatchGo line (sortedEnabled table)
  ((r.1, r.2.1), table.filter (fun t => !(r.2.2.contains t.id)))

/-- The prefix of a list up to and including its first element satisfying
`p` (specification-side description of the early-exit loop). -/
def takeThrough (p : TriggerRec → Bool) : List TriggerRec → List TriggerRec
  | [] => []
  | t :: rest => if p t then [t] else t :: takeThrough p rest

/-! ### SimpleCommand.execute (objects.py) -/

def MAX_RETRY : Nat := 20

/-- The outcome of one race round of SimpleCommand.execute: which kind of
trigger task finished first, or no task before the timeout. -/
inductive RaceWinner where
  | succ
  | fail
  | retry
  | timeout
  deriving DecidableEq, Repr

/-- The `while True` loop of SimpleCommand.execute over a trace of race
winners. Each iteration writes the command text once
(session.writeline(cmd)) before racing; a success or failure winner ends
the loop with that outcome; a retry winner increments the retry counter
and ends with FAILURE once it exceeds MAX_RETRY, otherwise loops; no
winner is the timeout outcome. Returns the loop result (`none` when the
trace ends with the loop still running) and the number of writes. -/
def executeLoop : List RaceWinner → Nat → Nat → Option Int × Nat
  | [], _, writes => (none, writes)
  | w :: rest, retry_times, writes =>
      let writes2 := writes + 1
      match w with
      | .succ => (some SUCCESS, writes2)
      | .fail => (some FAILURE, writes2)
      | .timeout => (some TIMEOUT, writes2)
      | .retry =>
          if retry_times + 1 > MAX_RETRY then (some FAILURE, writes2)
          else executeLoop rest (retry_times + 1) writes2

/-- SimpleCommand.execute from a fresh state: retry counter 0, no writes yet. -/
def simpleCommandExecute (winners : List RaceWinner) : Option Int × Nat :=
  executeLoop winners 0 0

/-!
## Theorems

Helper lemmas come first, then one theorem per claim (with its witness or
counterexample where required).
-/

/-- C4: the claim demands that the MSDP decoder never raises, logging and
discarding on failure, and that table-form payloads are supported. The code
contradicts this: on the well-formed table payload
`IAC SB MSDP VAR "A" VAL TABLE_OPEN VAR "x" VAL "y" TABLE_CLOSE IAC SE`
the TABLE_CLOSE branch executes `table_var_name.decode[self.encoding]`,
which subscripts the bound method object and raises TypeError, so the
decode crashes instead of discarding. The same decoder handles the
analogous array-form payload without raising, confirming that the table
branch alone contradicts the documented intent. -/
theorem msdp_table_decode_raises :
    handle_msdp_sb [255, 250, 69, 1, 65, 2, 3, 1, 120, 2, 121, 4, 255, 240]
      = .error "TypeError: builtin_function_or_method object is not subscriptable"
    ∧ handle_msdp_sb [255, 250, 69, 1, 65, 2, 5, 2, 120, 2, 121, 6, 255, 240]
      = .ok [("A", some (.array ["x", "y"]))] :=
  ⟨rfl, rfl⟩

/-- C5: a retry-trigger win increments the retry counter and, past
MAX_RETRY = 20, ends the execute call with FAILURE; a trace of 21 retry
wins yields FAILURE (after 21 writes of the command), and a trace of 4
retry wins followed by a success win yields SUCCESS with exactly 5 writes
of the command text. -/
theorem simple_command_retry_bound :
    (∀ (rest : List RaceWinner) (retry_times writes : Nat),
      executeLoop (.retry :: rest) retry_times writes =
        if retry_times + 1 > MAX_RETRY then (some FAILURE, writes + 1)
        else executeLoop rest (retry_times + 1) (writes + 1))
    ∧ simpleCommandExecute (List.replicate 21 .retry) = (some FAILURE, 21)
    ∧ simpleCommandExecute (List.replicate 4 .retry ++ [.succ]) = (some SUCCESS, 5) :=
  ⟨fun _ _ _ => rfl, by decide, by decide⟩

/-- C8: one outer brace pair does not change the decomposition:
`CodeBlock("\x7ba;b;c\x7d")` and `CodeBlock("a;b;c")` both decompose into
the three code lines `a`, `b`, `c`, and their `codes` sequences agree
element-wise as parsed CodeLines. -/
theorem create_block_outer_braces :
    create_block "\x7ba;b;c\x7d" = .ok ["a", "b", "c"]
    ∧ create_block "a;b;c" = .ok ["a", "b", "c"]
    ∧ codesOf "\x7ba;b;c\x7d" = codesOf "a;b;c"
    ∧ (create_block "\x7ba;b;c\x7d").map List.length = .ok 3 := by
  have h1 : create_block "\x7ba;b;c\x7d" = .ok ["a", "b", "c"] := rfl
  have h2 : create_block "a;b;c" = .ok ["a", "b", "c"] := rfl
  refine ⟨h1, h2, ?_, ?_⟩
  · simp only [codesOf, h1, h2]
  · simp only [h1, Except.map]
    rfl

/-- The dispatch loop, characterised: it evaluates exactly the prefix of
its input up to and including the first firing trigger without keepEval;
the fired ids are the firing ones among those; the removed ids are the
firing one-shot ones among those. -/
theorem dispatchGo_eq_takeThrough (line : String) (l : List TriggerRec) :
    dispatchGo line l =
      ((takeThrough (fun t => t.fires line && !t.keepEval) l).map (·.id),
       ((takeThrough (fun t => t.fires line && !t.keepEval) l).filter (·.fires line)).map (·.id),
       ((takeThrough (fun t => t.fires line && !t.keepEval) l).filter
          (fun t => t.fires line && t.oneShot)).map (·.id)) := by
  induction l with
  | nil => rfl
  | cons t rest ih =>
      by_cases hf : t.fires line
      · by_cases hk : t.keepEval
        · by_cases ho : t.oneShot <;>
            simp [dispatchGo, takeThrough, hf, hk, ho, ih, List.filter_cons]
        · by_cases ho : t.oneShot <;>
            simp [dispatchGo, takeThrough, hf, hk, ho, List.filter_cons]
      · simp [dispatchGo, takeThrough, hf, ih, List.filter_cons]

/-- C6: the dispatch loop of go_ahead evaluates exactly the enabled
triggers in ascending priority order up to and including the first firing
trigger without keepEval (stopping evaluation of the rest); the callbacks
that fire are exactly the firing ones among those; a firing one-shot
trigger is removed from the session table; and concretely, of two enabled
triggers with priorities 10 and 50 that both match the line and neither
with keepEval, only the priority-10 callback fires, and a firing one-shot
trigger is gone from the resulting table. -/
theorem go_ahead_priority_dispatch :
    (∀ (table : List TriggerRec) (line : String),
      (go_ahead_dispatch table line).1.1 =
        ((takeThrough (fun t => t.fires line && !t.keepEval) (sortedEnabled table)).map (·.id))
      ∧ (go_ahead_dispatch table line).1.2 =
        (((takeThrough (fun t => t.fires line && !t.keepEval) (sortedEnabled table)).filter
            (·.fires line)).map (·.id))
      ∧ (go_ahead_dispatch table line).2 =
        table.filter (fun t =>
          !((((takeThrough (fun t => t.fires line && !t.keepEval) (sortedEnabled table)).filter
              (fun t => t.fires line && t.oneShot)).map (·.id)).contains t.id)))
    ∧ (go_ahead_dispatch
        [{ id := "t50", enabled := true, priority := 50, keepEval := false, oneShot := false
           , fires := fun _ => true },
         { id := "t10", enabled := true, priority := 10, keepEval := false, oneShot := false
           , fires := fun _ => true }] "line").1.2 = ["t10"]
    ∧ (go_ahead_dispatch
        [{ id := "os", enabled := true, priority := 10, keepEval := false, oneShot := true
           , fires := fun _ => true },
         { id := "t50", enabled := true, priority := 50, keepEval := false, oneShot := false
           , fires := fun _ => true }] "line").2 =
      [{ id := "t50", enabled := true, priority := 50, keepEval := false, oneShot := false
         , fires := fun _ => true }] := by
  refine ⟨fun table line => ?_, rfl, rfl⟩
  simp [go_ahead_dispatch, dispatchGo_eq_takeThrough]

/-- C7: for the multi-line matcher, at an interior counter a match
advances the counter and appends the line and captured groups while a
non-match resets the counter to 0; at the final counter a match yields
SUCCESS with all accumulated lines (joined for the State) and wildcards
and resets the counter, and a non-match resets the counter without
SUCCESS. Concretely, a 3-pattern trigger fed two matching lines then a
non-matching third never reports SUCCESS, ends with counter 0, and can
restart on the next line matching pattern 0. -/
theorem multiline_match_reset :
    (∀ (rs : List Pattern) (st : MLState) (line : String) (gs : List String),
      0 < st.mline → st.mline < rs.length - 1 →
      (rs.getD st.mline (fun _ => none) line = some gs →
        multiline_match rs st line =
          ({ mline := st.mline + 1, lines := st.lines ++ [line]
             , wildcards := st.wildcards ++ gs }, NOTSET))
      ∧ (rs.getD st.mline (fun _ => none) line = none →
        multiline_match rs st line = ({ st with mline := 0 }, NOTSET)))
    ∧ (∀ (rs : List Pattern) (st : MLState) (line : String) (gs : List String),
      0 < st.mline → st.mline = rs.length - 1 →
      (rs.getD st.mline (fun _ => none) line = some gs →
        multiline_match rs st line =
          ({ mline := 0, lines := st.lines ++ [line]
             , wildcards := st.wildcards ++ gs }, SUCCESS)
        ∧ stateLine (multiline_match rs st line).1 =
            String.intercalate "\n" (st.lines ++ [line]))
      ∧ (rs.getD st.mline (fun _ => none) line = none →
        multiline_match rs st line = ({ st with mline := 0 }, NOTSET)))
    ∧ (let pA : Pattern := fun l => if l = "A" then some [] else none
       let pB : Pattern := fun l => if l = "B" then some [] else none
       let pC : Pattern := fun l => if l = "C" then some [] else none
       let rs := [pA, pB, pC]
       let r1 := multiline_match rs { mline := 0, lines := [], wildcards := [] } "A"
       let r2 := multiline_match rs r1.1 "B"
       let r3 := multiline_match rs r2.1 "X"
       r1.2 ≠ SUCCESS ∧ r2.2 ≠ SUCCESS ∧ r3.2 ≠ SUCCESS ∧ r3.1.mline = 0
       ∧ (multiline_match rs r3.1 "A").1.mline = 1) := by
  refine ⟨?_, ?_, by decide⟩
  · intro rs st line gs h1 h2
    constructor
    · intro hm
      unfold multiline_match
      rw [if_neg (by omega), if_pos ⟨h1, h2⟩, hm]
    · intro hm
      unfold multiline_match
      rw [if_neg (by omega), if_pos ⟨h1, h2⟩, hm]
  · intro rs st line gs h1 h2
    constructor
    · intro hm
      have he : multiline_match rs st line =
          ({ mline := 0, lines := st.lines ++ [line]
             , wildcards := st.wildcards ++ gs }, SUCCESS) := by
        unfold multiline_match
        rw [if_neg (by omega), if_neg (by omega), if_pos h2, hm]
      exact ⟨he, by rw [he]; rfl⟩
    · intro hm
      unfold multiline_match
      rw [if_neg (by omega), if_neg (by omega), if_pos h2, hm]

/-- C7 witness: the interior and final cases of the theorem applied to a
concrete 3-pattern matcher and concrete lines. -/
theorem multiline_match_reset_witness :
    multiline_match
        [fun l => if l = "A" then some [] else none,
         fun l => if l = "B" then some [] else none,
         fun l => if l = "C" then some [] else none]
        { mline := 1, lines := ["A"], wildcards := [] } "B" =
      ({ mline := 2, lines := ["A", "B"], wildcards := [] }, NOTSET) :=
  ((multiline_match_reset.1
      [fun l => if l = "A" then some [] else none,
       fun l => if l = "B" then some [] else none,
       fun l => if l = "C" then some [] else none]
      { mline := 1, lines := ["A"], wildcards := [] } "B" []
      (by decide) (by decide)).1 (by decide))

theorem findIdx_append_self (v : List Char) :
    ∀ (name : List Char), ' ' ∉ name →
    findIdx ' ' (name ++ ' ' :: v) = (name.length : Int) := by
  intro name h
  induction name with
  | nil => simp [findIdx]
  | cons c rest ih =>
      have hc : ¬(c = ' ') := fun hc => h (by simp [hc])
      have hr : ' ' ∉ rest := fun hm => h (List.mem_cons_of_mem _ hm)
      rw [List.cons_append, findIdx]
      rw [if_neg hc, ih hr]
      rw [if_neg (by omega)]
      simp only [List.length_cons]
      push_cast
      ring

theorem sliceTo_length (a b : List Char) : sliceTo (a ++ b) (a.length : Int) = a := by
  simp [sliceTo]

theorem sliceFrom_length_succ (a b : List Char) (c : Char) :
    sliceFrom (a ++ c :: b) ((a.length : Int) + 1) = b := by
  have h0 : (0 : Int) ≤ (a.length : Int) + 1 := by omega
  rw [sliceFrom, if_pos h0]
  rw [show a ++ c :: b = (a ++ [c]) ++ b by simp]
  rw [show ((a.length : Int) + 1).toNat = (a ++ [c]).length by simp]
  exact List.drop_left _ _

/-- C3 corrected, counterexample: the GMCP payload `Status 2` splits into
name `Status` and raw value `2`; the trigger receives the raw value, but
what it stores is the result of Python eval on it — the int object 2, not
the raw text `2` — refuting, at this input, the claim that the stored
value is exactly the raw text after the first space. -/
theorem gmcp_eval_counterexample :
    handle_gmcp_sb_split "Status 2" = ("Status", "2")
    ∧ feed_gmcp pyEvalIntLiteral ["Status"] "Status" "2"
        = some (gmcpTriggerCall pyEvalIntLiteral "Status" "2")
    ∧ (gmcpTriggerCall pyEvalIntLiteral "Status" "2").value = PyValue.int 2
    ∧ ¬((gmcpTriggerCall pyEvalIntLiteral "Status" "2").value = PyValue.str "2") :=
  ⟨rfl, rfl, rfl, by decide⟩

/-- C3 amended: the client splits a GMCP payload at the first space into a
Name and a value, and hands the raw value text to the dispatch: the
trigger named Name is called with it, its `line` attribute and the value
argument of its onSuccess callback are exactly the raw text. But the
trigger does attempt to evaluate the value as a Python expression: the
stored `value` attribute is the eval result whenever eval succeeds, and
the raw text only when eval raises. -/
theorem gmcp_split_and_trigger (pyEval : String → Option PyValue)
    (id name value : String) (hname : ' ' ∉ name.data) :
    handle_gmcp_sb_split (name ++ " " ++ value) = (name, value)
    ∧ feed_gmcp pyEval [name] name value = some (gmcpTriggerCall pyEval name value)
    ∧ (gmcpTriggerCall pyEval id value).line = value
    ∧ (gmcpTriggerCall pyEval id value).onSuccessArgs.2.1 = value
    ∧ (gmcpTriggerCall pyEval id value).value =
        (match pyEval value with
         | some v => v
         | none => PyValue.str value) := by
  refine ⟨?_, by simp [feed_gmcp], rfl, rfl, rfl⟩
  obtain ⟨nd⟩ := name
  obtain ⟨vd⟩ := value
  have hdata : ((String.mk nd) ++ " " ++ (String.mk vd)).data = nd ++ ' ' :: vd := by
    simp [String.data_append]
  rw [handle_gmcp_sb_split, hdata]
  rw [findIdx_append_self vd nd hname]
  rw [sliceTo_length, sliceFrom_length_succ]

/-- C3 witness: the amended theorem applied to the concrete payload
`Status 2` with the integer-literal evaluation model. -/
theorem gmcp_split_and_trigger_witness :
    handle_gmcp_sb_split ("Status" ++ " " ++ "2") = ("Status", "2")
    ∧ (gmcpTriggerCall pyEvalIntLiteral "Status" "2").line = "2" :=
  ⟨(gmcp_split_and_trigger pyEvalIntLiteral "Status" "Status" "2" (by decide)).1,
   (gmcp_split_and_trigger pyEvalIntLiteral "Status" "Status" "2" (by decide)).2.2.1⟩

/-- C9 corrected, counterexample: the CodeLine built from `a  b` (two
separating spaces) has the token tuple `("a", "", "b")` with an empty
middle token; expansion produces `["a", "b"]`, not the per-token image
`["a", "", "b"]` the claim describes — the empty token is skipped, not
kept unchanged. -/
theorem expand_empty_token_counterexample :
    create_line "a  b" = .ok (SyncMode.dontcare, false, ["a", "", "b"])
    ∧ expand (fun _ => none) none none [] ["a", "", "b"] = ["a", "b"]
    ∧ ¬(expand (fun _ => none) none none [] ["a", "", "b"]
        = ["a", "", "b"].map (specTokenMap (fun _ => none) "None" "None" [])) :=
  ⟨rfl, rfl, by decide⟩

/-- C9 amended: expansion maps every nonempty token exactly as the claim
states — `%1`..`%9` to the 1-based wildcard capture or the literal string
None when out of range, `%line` and `%raw` to the current values of the
two pseudo-variables, other `%`-tokens to the session variable named by
the full token with default empty string, `@`-tokens to the session
variable named by the rest with default empty string, and anything else
to itself — while empty tokens (arising from consecutive separators) are
skipped entirely. -/
theorem expand_maps_tokens (vars : String → Option String)
    (kwline kwraw : Option String) (wildcards tokens : List String) :
    expand vars kwline kwraw wildcards tokens =
      tokens.filterMap (fun item =>
        if item.length = 0 then none
        else some (specTokenMap vars
          (pyOrStr kwline (getVariable vars "%line" "None"))
          (pyOrStr kwraw (getVariable vars "%raw" "None")) wildcards item)) := by
  rw [expand]
  generalize pyOrStr kwline (getVariable vars "%line" "None") = line
  generalize pyOrStr kwraw (getVariable vars "%raw" "None") = raw
  induction tokens with
  | nil => rfl
  | cons item rest ih =>
      rw [expandGo, List.filterMap_cons, ih]
      by_cases h0 : item.length = 0
      · simp [h0]
      · simp only [h0, if_neg h0, if_false]
        rw [specTokenMap]
        split_ifs <;> rfl

theorem xor_parity_succ (b : Bool) (n : Nat) :
    (b ^^ ((n + 1) % 2 == 1)) = (!b ^^ (n % 2 == 1)) := by
  rcases Nat.mod_two_eq_zero_or_one n with h | h <;>
    simp [Nat.add_mod, h]

/-- The scan loop of create_line never reaches the unmatched-brace error
when no closing brace arrives at depth 0, and it toggles each quote flag
once per quote character. -/
theorem scanLine_ok (cs : List Char) : ∀ st : ScanState, bracesOk cs st.brace = true →
    ∃ st2, scanLine st cs = .ok st2
      ∧ st2.sq = (st.sq ^^ (cs.count squote % 2 == 1))
      ∧ st2.dq = (st.dq ^^ (cs.count dquote % 2 == 1)) := by
  induction cs with
  | nil => intro st h; exact ⟨st, rfl, by simp, by simp⟩
  | cons c rest ih =>
      intro st h
      rw [bracesOk] at h
      by_cases h1 : c = lbrace
      · subst h1
        rw [if_pos rfl] at h
        obtain ⟨st2, hrun, hsq, hdq⟩ :=
          ih { st with brace := st.brace + 1, arg := st.arg.push lbrace } h
        refine ⟨st2, ?_, ?_, ?_⟩
        · rw [scanLine, if_pos rfl]; exact hrun
        · rw [List.count_cons_of_ne (by decide), hsq]
        · rw [List.count_cons_of_ne (by decide), hdq]
      · by_cases h2 : c = rbrace
        · subst h2
          rw [if_neg h1, if_pos rfl] at h
          by_cases hb0 : st.brace = 0
          · rw [if_pos hb0] at h; exact absurd h (by simp)
          · rw [if_neg hb0] at h
            obtain ⟨st2, hrun, hsq, hdq⟩ :=
              ih { st with brace := st.brace - 1, arg := st.arg.push rbrace } h
            refine ⟨st2, ?_, ?_, ?_⟩
            · rw [scanLine, if_neg h1, if_pos rfl, if_neg hb0]; exact hrun
            · rw [List.count_cons_of_ne (by decide), hsq]
            · rw [List.count_cons_of_ne (by decide), hdq]
        · rw [if_neg h1, if_neg h2] at h
          by_cases h3 : c = squote
          · subst h3
            obtain ⟨st2, hrun, hsq, hdq⟩ := ih { st with sq := !st.sq } h
            refine ⟨st2, ?_, ?_, ?_⟩
            · rw [scanLine, if_neg h1, if_neg h2, if_pos rfl]; exact hrun
            · rw [List.count_cons_self, xor_parity_succ]; exact hsq
            · rw [List.count_cons_of_ne (by decide), hdq]
          · by_cases h4 : c = dquote
            · subst h4
              obtain ⟨st2, hrun, hsq, hdq⟩ := ih { st with dq := !st.dq } h
              refine ⟨st2, ?_, ?_, ?_⟩
              · rw [scanLine, if_neg h1, if_neg h2, if_neg h3, if_pos rfl]; exact hrun
              · rw [List.count_cons_of_ne (by decide), hsq]
              · rw [List.count_cons_self, xor_parity_succ]; exact hdq
            · by_cases h5 : c = ' '
              · subst h5
                by_cases hcond : st.brace = 0 ∧ st.dq = false ∧ st.sq = false
                · obtain ⟨st2, hrun, hsq, hdq⟩ :=
                    ih { st with params := st.params ++ [st.arg], arg := "" } h
                  refine ⟨st2, ?_, ?_, ?_⟩
                  · rw [scanLine, if_neg h1, if_neg h2, if_neg h3, if_neg h4, if_pos rfl,
                      if_pos hcond]
                    exact hrun
                  · rw [List.count_cons_of_ne (by decide), hsq]
                  · rw [List.count_cons_of_ne (by decide), hdq]
                · obtain ⟨st2, hrun, hsq, hdq⟩ := ih { st with arg := st.arg.push ' ' } h
                  refine ⟨st2, ?_, ?_, ?_⟩
                  · rw [scanLine, if_neg h1, if_neg h2, if_neg h3, if_neg h4, if_pos rfl,
                      if_neg hcond]
                    exact hrun
                  · rw [List.count_cons_of_ne (by decide), hsq]
                  · rw [List.count_cons_of_ne (by decide), hdq]
              · obtain ⟨st2, hrun, hsq, hdq⟩ := ih { st with arg := st.arg.push c } h
                refine ⟨st2, ?_, ?_, ?_⟩
                · rw [scanLine, if_neg h1, if_neg h2, if_neg h3, if_neg h4, if_neg h5]
                  exact hrun
                · rw [List.count_cons_of_ne (Ne.symm h3), hsq]
                · rw [List.count_cons_of_ne (Ne.symm h4), hdq]

/-- C10: create_line on the empty string hits the branch that returns the
never-assigned local `syncmode`, so construction raises instead of
producing a CodeLine with an empty token tuple; and on every non-empty
line whose quotes are balanced and which has no unmatched closing brace,
create_line returns a (syncmode, hasvar, tokens) triple. -/
theorem create_line_empty_and_total :
    create_line "" = .error "UnboundLocalError: syncmode"
    ∧ ∀ (line : String), line ≠ "" →
      bracesOk line.data 0 = true →
      line.data.count squote % 2 = 0 →
      line.data.count dquote % 2 = 0 →
      ∃ t, create_line line = .ok t := by
  refine ⟨rfl, ?_⟩
  intro line hne hbr hsq hdq
  obtain ⟨d⟩ := line
  cases d with
  | nil => exact absurd rfl hne
  | cons c tail =>
      have hlen : (String.mk (c :: tail)).length > 0 := by
        simp [String.length]
      rw [create_line, if_pos hlen]
      simp only [List.headD_cons]
      by_cases hc : c = '#'
      · subst hc
        rw [bracesOk, if_neg (by decide), if_neg (by decide)] at hbr
        rw [List.count_cons_of_ne (by decide)] at hsq
        rw [List.count_cons_of_ne (by decide)] at hdq
        simp only [eq_self_iff_true, if_true, List.drop_one, List.tail_cons]
        obtain ⟨st2, hrun, hsq2, hdq2⟩ :=
          scanLine_ok tail { brace := 0, sq := false, dq := false, arg := "", params := ["#"] } hbr
        rw [hrun]
        have hno : ¬(st2.sq = true ∨ st2.dq = true) := by
          rw [hsq2, hdq2, hsq, hdq]
          simp
        dsimp only
        rw [if_neg hno]
        exact ⟨_, rfl⟩
      · simp only [if_neg hc]
        obtain ⟨st2, hrun, hsq2, hdq2⟩ :=
          scanLine_ok (c :: tail)
            { brace := 0, sq := false, dq := false, arg := "", params := [] } hbr
        rw [hrun]
        have hno : ¬(st2.sq = true ∨ st2.dq = true) := by
          rw [hsq2, hdq2, hsq, hdq]
          simp
        dsimp only
        rw [if_neg hno]
        exact ⟨_, rfl⟩

/-- C10 witness: the theorem applied to the empty string and to the
concrete balanced line `say hi`. -/
theorem create_line_empty_and_total_witness :
    create_line "" = .error "UnboundLocalError: syncmode"
    ∧ ∃ t, create_line "say hi" = .ok t :=
  ⟨create_line_empty_and_total.1,
   create_line_empty_and_total.2 "say hi" (by decide) (by decide) (by decide) (by decide)⟩

theorem protoRunFrom_append (st : ProtoState) (xs ys : List Nat) :
    protoRunFrom st (xs ++ ys) =
      ((protoRunFrom (protoRunFrom st xs).1 ys).1,
       (protoRunFrom st xs).2 ++ (protoRunFrom (protoRunFrom st xs).1 ys).2) := by
  induction xs generalizing st with
  | nil => simp [protoRunFrom]
  | cons b rest ih => simp [protoRunFrom, ih]

/-- In state waitsbdata, a run of bytes free of IAC is appended to the
sub-negotiation buffer, emitting nothing and staying in waitsbdata. -/
theorem run_sbdata_no_iac (p : List Nat) :
    (∀ b ∈ p, b ≠ 0xFF) → ∀ (buf : List Nat) (c o : Option Nat),
    protoRunFrom { sm := SM.waitsbdata, iacCommand := c, subNegData := buf, subNegOption := o } p
      = ({ sm := SM.waitsbdata, iacCommand := c, subNegData := buf ++ p, subNegOption := o },
         []) := by
  induction p with
  | nil => intro _ buf c o; simp [protoRunFrom]
  | cons b rest ih =>
      intro h buf c o
      have hb : ¬(b = 0xFF) := h b (List.mem_cons_self _ _)
      have ih2 := ih (fun x hx => h x (List.mem_cons_of_mem _ hx))
      simp [protoRunFrom, protoStep, IAC, hb, ih2]

/-- In state waitsbdata, an escaped byte run (every IAC doubled) is
appended verbatim to the buffer — the inner IAC of each pair bounces
waitse back to waitsbdata, keeping both bytes — emitting nothing. -/
theorem run_sbdata_escape (q : List Nat) :
    ∀ (buf : List Nat) (c o : Option Nat),
    protoRunFrom { sm := SM.waitsbdata, iacCommand := c, subNegData := buf, subNegOption := o }
        (escapeIAC q)
      = ({ sm := SM.waitsbdata, iacCommand := c, subNegData := buf ++ escapeIAC q
           , subNegOption := o }, []) := by
  induction q with
  | nil => intro buf c o; simp [protoRunFrom, escapeIAC]
  | cons b rest ih =>
      intro buf c o
      by_cases hb : b = 0xFF
      · subst hb
        simp [escapeIAC, protoRunFrom, protoStep, IAC, SE, ih]
      · simp [escapeIAC, protoRunFrom, protoStep, IAC, hb, ih]

/-- From the normal state, `IAC SB <opt>` opens a sub-negotiation: one
go-ahead is signalled, the buffer restarts at `IAC SB opt`, and the
machine waits for sub-negotiation data. -/
theorem run_header (c0 : Option Nat) (d0 : List Nat) (o0 : Option Nat)
    (opt : Nat) (hopt : ¬(opt = 0xFF)) :
    protoRunFrom { sm := SM.normal, iacCommand := c0, subNegData := d0, subNegOption := o0 }
        [0xFF, 0xFA, opt]
      = ({ sm := SM.waitsbdata, iacCommand := some 0xFA
           , subNegData := [0xFF, 0xFA, opt], subNegOption := some opt },
         [.goAhead]) := by
  simp [protoRunFrom, protoStep, IAC, SB, WILL, WONT, DO, DONT, NOP, GA, hopt]

/-- From waitsbdata, the terminator `IAC SE` completes the
sub-negotiation: the buffer gains the two terminator bytes, exactly one
completion event carries the whole buffer, and the machine returns to
normal. -/
theorem run_tail (c : Option Nat) (buf : List Nat) (o : Nat) :
    protoRunFrom
        { sm := SM.waitsbdata, iacCommand := c, subNegData := buf, subNegOption := some o }
        [0xFF, 0xF0]
      = ({ sm := SM.normal, iacCommand := c, subNegData := buf ++ [0xFF, 0xF0]
           , subNegOption := some o },
         [.subnegComplete (some o) (buf ++ [0xFF, 0xF0])
            (knownOpt (some o)) (handledOpt (some o))]) := by
  simp [protoRunFrom, protoStep, IAC, SE]

theorem subneg_handled_opt (opt : Nat) (h : opt ∈ subnegHandledBytes) :
    ¬(opt = 0xFF) ∧ knownOpt (some opt) = true ∧ handledOpt (some opt) = true := by
  simp [subnegHandledBytes] at h
  rcases h with rfl | rfl | rfl | rfl | rfl | rfl <;> exact ⟨by decide, by decide, by decide⟩

theorem subnegPayloadSlice_append (x y z : Nat) (p : List Nat) (u v : Nat) :
    subnegPayloadSlice ([x, y, z] ++ p ++ [u, v]) = p := by
  simp [subnegPayloadSlice]

theorem countIAC_escapeIAC (q : List Nat) : countIAC (escapeIAC q) = 2 * countIAC q := by
  induction q with
  | nil => rfl
  | cons b rest ih =>
      by_cases hb : b = 0xFF
      · subst hb
        simp [escapeIAC, countIAC, List.count_append, List.count_cons] at *
        omega
      · simp [escapeIAC, countIAC, hb, List.count_append, List.count_cons] at *
        omega

/-- C2: feeding `IAC SB <opt> <payload> IAC SE` (payload free of literal
IAC, opt an option with a sub-negotiation codec) to the classifier in the
Normal state returns it to Normal, dispatches exactly one sub-negotiation
event — for option opt, with the accumulated buffer starting `IAC SB opt`,
ending `IAC SE`, and the payload byte-for-byte in between, the codec
lookup succeeding — and no strict prefix of the byte sequence dispatches
anything: a partially received sub-negotiation is never dispatched. -/
theorem subneg_single_dispatch (opt : Nat) (payload : List Nat)
    (hopt : opt ∈ subnegHandledBytes) (hp : ∀ b ∈ payload, b ≠ 0xFF)
    (c0 : Option Nat) (d0 : List Nat) (o0 : Option Nat) :
    (protoRunFrom ⟨SM.normal, c0, d0, o0⟩
        ([0xFF, 0xFA, opt] ++ payload ++ [0xFF, 0xF0])).1.sm = SM.normal
    ∧ (protoRunFrom ⟨SM.normal, c0, d0, o0⟩
        ([0xFF, 0xFA, opt] ++ payload ++ [0xFF, 0xF0])).2
      = [ProtoEvent.goAhead,
         ProtoEvent.subnegComplete (some opt)
           ([0xFF, 0xFA, opt] ++ payload ++ [0xFF, 0xF0]) true true]
    ∧ subnegPayloadSlice ([0xFF, 0xFA, opt] ++ payload ++ [0xFF, 0xF0]) = payload
    ∧ ∀ k, k < ([0xFF, 0xFA, opt] ++ payload ++ [0xFF, 0xF0]).length →
        subnegEvents (protoRunFrom ⟨SM.normal, c0, d0, o0⟩
          (([0xFF, 0xFA, opt] ++ payload ++ [0xFF, 0xF0]).take k)).2 = [] := by
  obtain ⟨hne, hkn, hhd⟩ := subneg_handled_opt opt hopt
  have hrun : protoRunFrom ⟨SM.normal, c0, d0, o0⟩
      ([0xFF, 0xFA, opt] ++ payload ++ [0xFF, 0xF0])
      = ({ sm := SM.normal, iacCommand := some 0xFA
           , subNegData := [0xFF, 0xFA, opt] ++ payload ++ [0xFF, 0xF0]
           , subNegOption := some opt },
         [ProtoEvent.goAhead,
          ProtoEvent.subnegComplete (some opt)
            ([0xFF, 0xFA, opt] ++ payload ++ [0xFF, 0xF0]) true true]) := by
    rw [protoRunFrom_append, protoRunFrom_append, run_header c0 d0 o0 opt hne]
    simp only [run_sbdata_no_iac payload hp, run_tail, hkn, hhd]
    simp [List.append_assoc]
  refine ⟨by rw [hrun], by rw [hrun], subnegPayloadSlice_append _ _ _ _ _ _, ?_⟩
  intro k hk
  by_cases hk3 : k ≤ 3
  · interval_cases k <;>
      simp [protoRunFrom, protoStep, subnegEvents, IAC, SB, WILL, WONT, DO, DONT, NOP, GA, hne]
  · have hj : ∃ j, k = 3 + j := ⟨k - 3, by omega⟩
    obtain ⟨j, rfl⟩ := hj
    have hjlen : j ≤ payload.length + 1 := by
      simp [List.length_append] at hk
      omega
    have htake : (([0xFF, 0xFA, opt] ++ payload ++ [0xFF, 0xF0]).take (3 + j))
        = [0xFF, 0xFA, opt] ++ (payload ++ [0xFF, 0xF0]).take j := by
      rw [List.append_assoc]
      rw [show (3 + j) = ([0xFF, 0xFA, opt] : List Nat).length + j by simp]
      exact List.take_append _
    rw [htake, protoRunFrom_append, run_header c0 d0 o0 opt hne]
    by_cases hjp : j ≤ payload.length
    · have hpt : (payload ++ [0xFF, 0xF0]).take j = payload.take j :=
        List.take_append_of_le_length hjp
      rw [hpt, run_sbdata_no_iac (payload.take j)
        (fun b hb => hp b (List.take_subset _ _ hb))]
      simp [subnegEvents]
    · have hj1 : j = payload.length + 1 := by omega
      subst hj1
      have hpt : (payload ++ [0xFF, 0xF0]).take (payload.length + 1)
          = payload ++ [0xFF] := by
        rw [show payload.length + 1 = payload.length + 1 from rfl, List.take_append]
        rfl
      rw [hpt, protoRunFrom_append, run_sbdata_no_iac payload hp]
      simp [protoRunFrom, protoStep, IAC, subnegEvents]

/-- C2 witness: the theorem applied to the GMCP option 0xC9 and the
two-byte payload `[65, 66]` from the initial state. -/
theorem subneg_single_dispatch_witness :
    (protoRunFrom ⟨SM.normal, none, [], none⟩
        ([0xFF, 0xFA, 0xC9] ++ [65, 66] ++ [0xFF, 0xF0])).2
      = [ProtoEvent.goAhead,
         ProtoEvent.subnegComplete (some 0xC9)
           ([0xFF, 0xFA, 0xC9] ++ [65, 66] ++ [0xFF, 0xF0]) true true] :=
  (subneg_single_dispatch 0xC9 [65, 66] (by decide) (by decide) none [] none).2.1

/-- C1 corrected, counterexample: on the stream
`IAC SB GMCP 0x41 IAC IAC 0x42 IAC SE` the classifier dispatches exactly
one sub-negotiation (so the inner IAC did not terminate it early), but
the decoded payload slice `data[3:-2]` contains two 0xFF bytes for the
single `IAC IAC` pair, not one: the escape is not collapsed. -/
theorem iac_escape_counterexample :
    subnegEvents (protoRunFrom ⟨SM.normal, none, [], none⟩
        [0xFF, 0xFA, 0xC9, 0x41, 0xFF, 0xFF, 0x42, 0xFF, 0xF0]).2
      = [(some 0xC9, [0xFF, 0xFA, 0xC9, 0x41, 0xFF, 0xFF, 0x42, 0xFF, 0xF0])]
    ∧ countIAC (subnegPayloadSlice [0xFF, 0xFA, 0xC9, 0x41, 0xFF, 0xFF, 0x42, 0xFF, 0xF0]) = 2
    ∧ ¬(countIAC (subnegPayloadSlice
        [0xFF, 0xFA, 0xC9, 0x41, 0xFF, 0xFF, 0x42, 0xFF, 0xF0]) = 1) := by
  decide

/-- C1 amended: for a sub-negotiation whose wire payload escapes every
raw 0xFF as `IAC IAC`, the classifier does not treat the inner IAC as the
start of the terminator — the sub-negotiation completes exactly once, at
the real `IAC SE`, with the machine back in Normal — but the escape is
not collapsed: the buffer keeps both bytes of every pair, so the decoded
payload slice contains exactly two 0xFF bytes per `IAC IAC` pair. -/
theorem iac_escape_kept (opt : Nat) (q : List Nat) (hopt : opt ∈ subnegHandledBytes)
    (c0 : Option Nat) (d0 : List Nat) (o0 : Option Nat) :
    (protoRunFrom ⟨SM.normal, c0, d0, o0⟩
        ([0xFF, 0xFA, opt] ++ escapeIAC q ++ [0xFF, 0xF0])).1.sm = SM.normal
    ∧ (protoRunFrom ⟨SM.normal, c0, d0, o0⟩
        ([0xFF, 0xFA, opt] ++ escapeIAC q ++ [0xFF, 0xF0])).2
      = [ProtoEvent.goAhead,
         ProtoEvent.subnegComplete (some opt)
           ([0xFF, 0xFA, opt] ++ escapeIAC q ++ [0xFF, 0xF0]) true true]
    ∧ subnegPayloadSlice ([0xFF, 0xFA, opt] ++ escapeIAC q ++ [0xFF, 0xF0]) = escapeIAC q
    ∧ countIAC (escapeIAC q) = 2 * countIAC q := by
  obtain ⟨hne, hkn, hhd⟩ := subneg_handled_opt opt hopt
  have hrun : protoRunFrom ⟨SM.normal, c0, d0, o0⟩
      ([0xFF, 0xFA, opt] ++ escapeIAC q ++ [0xFF, 0xF0])
      = ({ sm := SM.normal, iacCommand := some 0xFA
           , subNegData := [0xFF, 0xFA, opt] ++ escapeIAC q ++ [0xFF, 0xF0]
           , subNegOption := some opt },
         [ProtoEvent.goAhead,
          ProtoEvent.subnegComplete (some opt)
            ([0xFF, 0xFA, opt] ++ escapeIAC q ++ [0xFF, 0xF0]) true true]) := by
    rw [protoRunFrom_append, protoRunFrom_append, run_header c0 d0 o0 opt hne]
    simp only [run_sbdata_escape q, run_tail, hkn, hhd]
    simp [List.append_assoc]
  exact ⟨by rw [hrun], by rw [hrun],
    subnegPayloadSlice_append _ _ _ _ _ _, countIAC_escapeIAC q⟩

/-- C1 witness: the amended theorem applied to the GMCP option 0xC9 and
the raw payload `[0x41, 0xFF, 0x42]` (one escaped IAC). -/
theorem iac_escape_kept_witness :
    (protoRunFrom ⟨SM.normal, none, [], none⟩
        ([0xFF, 0xFA, 0xC9] ++ escapeIAC [0x41, 0xFF, 0x42] ++ [0xFF, 0xF0])).2
      = [ProtoEvent.goAhead,
         ProtoEvent.subnegComplete (some 0xC9)
           ([0xFF, 0xFA, 0xC9] ++ escapeIAC [0x41, 0xFF, 0x42] ++ [0xFF, 0xF0]) true true] :=
  (iac_escape_kept 0xC9 [0x41, 0xFF, 0x42] (by decide) none [] none).2.1

end PyMud
